import Mathlib

/-!
Verification of the classification-and-rollback core of
`Organize_Files_By_Framework_IntegrateJoplin.py`.

The Python program is embedded shallowly:

* pure string/path computations (`os.path.basename`, `os.path.dirname`,
  `os.path.join`, `str.lower`, substring tests) become Lean functions on
  `String` (a structure over `List Char`); the ASCII lowering of
  `str.lower` is modelled exactly for ASCII, which covers every catalog
  keyword;
* the effectful body of `classify_file` becomes a straight-line list of
  `Event`s (directory creation, `shutil.copy2`, the three Joplin API
  calls, `log_action`), in exactly the order the Python statements
  execute;
* Python exception propagation (the program has no `try`/`except` below
  the top level) becomes `runEvents`: an oracle decides which event
  raises, execution is cut at the first raising event and the failure
  propagates;
* the filesystem is a map `String → Option String` from paths to file
  contents; `shutil.copy2 src dest` writes the current content of `src`
  at `dest` and touches nothing else;
* the two append-only logs become `LogState`; `log_action` appends one
  structured audit record and one structured rollback record (the
  rollback line `mv '<dest>' '<src>'` is kept structurally as the pair
  (dest, src), read as "move dest back to src");
* `rollback()` reads the recorded rollback lines and executes them in
  `reversed` order; `rollbackExec` is the executed sequence in execution
  order.
-/

/-- ASCII lowering, as `str.lower` acts on ASCII characters. -/
def lowerChar (c : Char) : Char :=
  if 65 ≤ c.toNat ∧ c.toNat ≤ 90 then Char.ofNat (c.toNat + 32) else c

/-- Python substring test `needle in hay` on character lists. -/
def containsSub (needle : List Char) : List Char → Bool
  | [] => needle.isEmpty
  | c :: rest => needle.isPrefixOf (c :: rest) || containsSub needle rest

/-- `keyword.lower() in file_name.lower()` from line 76 of the source. -/
def keywordMatch (kw file_name : String) : Bool :=
  containsSub (kw.data.map lowerChar) (file_name.data.map lowerChar)

/-- `os.path.basename`: everything after the last slash. -/
def basename (p : String) : String :=
  ⟨(p.data.reverse.takeWhile (fun c => !(c == '/'))).reverse⟩

/-- The prefix of a path up to and including its last slash (helper for
`dirname`); empty when the path has no slash. -/
def takeThroughLastSlash : List Char → List Char
  | [] => []
  | c :: rest =>
      let t := takeThroughLastSlash rest
      if t.isEmpty then (if c == '/' then [c] else []) else c :: t

/-- `os.path.dirname` (POSIX): the head up to the last slash, with
trailing slashes stripped unless the head is all slashes. -/
def dirname (p : String) : String :=
  let head := takeThroughLastSlash p.data
  if head.isEmpty || head.all (fun c => c == '/') then ⟨head⟩
  else ⟨(head.reverse.dropWhile (fun c => c == '/')).reverse⟩

/-- `os.path.join` for two components (POSIX). -/
def pathJoin (a b : String) : String :=
  if b.data.head? == some '/' then b
  else if a.data.isEmpty || a.data.getLast? == some '/' then a ++ b
  else a ++ "/" ++ b

/-- `BASE_DIR` from line 21 of the source. -/
def BASE_DIR : String := "/home/dan/Business"

/-- `DEST_DIR` from line 22 of the source. -/
def DEST_DIR : String := BASE_DIR ++ "/Compliance_Frameworks"

/-- The `FRAMEWORKS` catalog from lines 27-34, as an ordered association
list: Python dicts iterate in insertion order. -/
def FRAMEWORKS : List (String × List String) :=
  [("FFIEC", ["ffiec", "federal financial institutions"]),
   ("NIST", ["nist", "cybersecurity framework"]),
   ("ISO", ["iso 27001", "international standards organization"]),
   ("FTC", ["ftc safeguard", "federal trade commission"]),
   ("GLBA", ["glba", "gramm-leach-bliley"]),
   ("CIS", ["cis controls", "center for internet security"])]

/-- `any(keyword.lower() in file_name.lower() for keyword in keywords)`
(line 76). -/
def nameMatches (keywords : List String) (file_name : String) : Bool :=
  keywords.any (fun kw => keywordMatch kw file_name)

/-- The matching loop of `classify_file` (lines 71-77): the list of
matched framework identifiers, in catalog iteration order. -/
def classify (file_path : String) : List String :=
  let file_name := basename file_path
  (FRAMEWORKS.filter (fun fe => nameMatches fe.2 file_name)).map Prod.fst

/-- One primitive side effect of the program, in source order within
`classify_file`.  `ensureDir` is `ensure_dir` (idempotent `os.makedirs`),
`copy2` is `shutil.copy2`, the three Joplin constructors are the calls of
`assign_joplin_tags` (the note id returned by `create_note` is identified
by the note title), and `logAction` is one call of `log_action`. -/
inductive Event where
  | ensureDir (dir : String)
  | copy2 (src dest : String)
  | createNote (title content : String)
  | createTag (tag : String)
  | addTagToNote (tag noteTitle : String)
  | logAction (action src dest : String)
deriving DecidableEq

/-- The straight-line trace of `assign_joplin_tags` (lines 97-111):
one `create_note`, then `create_tag` and `add_tag_to_note` per tag. -/
def assign_joplin_tags (file_path : String) (tags : List String) : List Event :=
  let title := basename file_path
  let content := "File: " ++ file_path ++ "\nLocated in: " ++ dirname file_path
  Event.createNote title content ::
    tags.flatMap (fun tag => [Event.createTag tag, Event.addTagToNote tag title])

/-- The per-framework body of the fan-out loop (lines 80-90):
`ensure_dir`, `shutil.copy2`, `assign_joplin_tags`, `log_action`, in that
statement order. -/
def fwBlock (file_path file_name fw : String) : List Event :=
  let dest_folder := DEST_DIR ++ "/" ++ fw
  let dest_path := pathJoin dest_folder file_name
  Event.ensureDir dest_folder :: Event.copy2 file_path dest_path ::
    (assign_joplin_tags file_path ["framework:" ++ fw] ++
      [Event.logAction "COPY" file_path dest_path])

/-- The straight-line trace of `classify_file` (lines 64-94). -/
def classify_file (file_path : String) : List Event :=
  let file_name := basename file_path
  let matched := classify file_path
  if matched.isEmpty then
    assign_joplin_tags file_path ["status:Unclassified"] ++
      [Event.logAction "LEAVE" file_path file_path]
  else
    matched.flatMap (fun fw => fwBlock file_path file_name fw)

/-- Exception-propagating execution: `ok` says which events complete
without raising. The result is the list of completed events (in order)
and whether the whole run completed; the first raising event aborts
everything after it, as an uncaught Python exception does. -/
def runEvents (ok : Event → Bool) : List Event → List Event × Bool
  | [] => ([], true)
  | e :: rest =>
      if ok e then
        let r := runEvents ok rest
        (e :: r.1, r.2)
      else ([], false)

/-- Effect of one completed event on the content map: only `copy2`
changes file contents, writing the source's current content at the
destination.  The source file is never removed. -/
def applyEvent (fs : String → Option String) : Event → String → Option String
  | Event.copy2 src dest => fun p => if p = dest then fs src else fs p
  | _ => fs

/-- Filesystem contents after a list of completed events. -/
def runFS (evs : List Event) (fs : String → Option String) : String → Option String :=
  evs.foldl applyEvent fs

/-- The walk loop of `process_files` (lines 114-124) over an explicit
file list: each file's `classify_file` runs in order; an exception while
processing a file propagates (there is no per-file handler), so later
files are not reached. -/
def process_files (ok : Event → Bool) : List String → List Event × Bool
  | [] => ([], true)
  | f :: rest =>
      let r := runEvents ok (classify_file f)
      if r.2 then
        let r2 := process_files ok rest
        (r.1 ++ r2.1, r2.2)
      else (r.1, false)

/-- One audit line (line 58): timestamp, action kind, source,
destination. -/
structure AuditRec where
  time : Nat
  action : String
  src : String
  dest : String
deriving DecidableEq

/-- One rollback line `mv '<dest>' '<src>'` (line 61), kept structurally:
the instruction that moves `dest` back to `src`. -/
structure RollbackRec where
  dest : String
  src : String
deriving DecidableEq

/-- The two append-only logs. -/
structure LogState where
  auditLog : List AuditRec
  rollbackLog : List RollbackRec
deriving DecidableEq

/-- `log_action` (lines 48-61): append one audit line and one rollback
line, the rollback line always being `mv dest src`. -/
def log_action (now : Nat) (action src dest : String) (st : LogState) : LogState :=
  { auditLog := st.auditLog ++ [⟨now, action, src, dest⟩],
    rollbackLog := st.rollbackLog ++ [⟨dest, src⟩] }

/-- The inverse instruction `log_action` records for an audit entry. -/
def inverseOf (a : AuditRec) : RollbackRec := ⟨a.dest, a.src⟩

/-- `rollback` (lines 127-137): the recorded rollback lines are executed
in `reversed` order; the value is the executed sequence, in execution
order. -/
def rollbackExec (recorded : List RollbackRec) : List RollbackRec :=
  recorded.reverse

/-- The two logs are in 1:1 correspondence: same length, and the i-th
rollback line is the inverse of the i-th audit line. -/
def logsAligned (st : LogState) : Prop :=
  st.auditLog.length = st.rollbackLog.length ∧
  ∀ (i : Nat) (h1 : i < st.auditLog.length) (h2 : i < st.rollbackLog.length),
    st.rollbackLog.get ⟨i, h2⟩ = inverseOf (st.auditLog.get ⟨i, h1⟩)

/-- Events that are `copy2` calls. -/
def isCopy : Event → Bool
  | Event.copy2 _ _ => true
  | _ => false

/-- Events that are `log_action` calls. -/
def isAudit : Event → Bool
  | Event.logAction _ _ _ => true
  | _ => false

/-- Events that are calls into the Joplin note-service boundary. -/
def isJoplin : Event → Bool
  | Event.createNote _ _ => true
  | Event.createTag _ => true
  | Event.addTagToNote _ _ => true
  | _ => false

/-! ## Helper lemmas -/

/-- Execution with exception propagation completes exactly the longest
prefix on which no event raises, and succeeds iff no event raises. -/
theorem runEvents_takeWhile (ok : Event → Bool) (l : List Event) :
    runEvents ok l = (l.takeWhile ok, l.all ok) := by
  induction l with
  | nil => rfl
  | cons e rest ih =>
      cases hok : ok e with
      | true => simp [runEvents, hok, List.takeWhile_cons, ih]
      | false => simp [runEvents, hok, List.takeWhile_cons]

/-- If every element of a list satisfies the predicate, `takeWhile`
returns the whole list. -/
theorem takeWhile_of_all {α : Type} (p : α → Bool) (l : List α)
    (h : l.all p = true) : l.takeWhile p = l := by
  induction l with
  | nil => rfl
  | cons a t ih =>
      simp only [List.all_cons, Bool.and_eq_true] at h
      simp [List.takeWhile_cons, h.1, ih h.2]

/-- Filtering distributes over `flatMap`. -/
theorem filter_flatMap {α β : Type} (q : β → Bool) (f : α → List β) (l : List α) :
    (l.flatMap f).filter q = l.flatMap (fun x => (f x).filter q) := by
  induction l with
  | nil => rfl
  | cons hd tl ih => simp [List.flatMap_cons, List.filter_append, ih]

/-- When filtering each block yields a singleton, filtering the whole
fan-out yields one element per block, in block order. -/
theorem filter_flatMap_single {α β : Type} (q : β → Bool) (f : α → List β)
    (g : α → β) (hblock : ∀ x, (f x).filter q = [g x]) (l : List α) :
    (l.flatMap f).filter q = l.map g := by
  induction l with
  | nil => rfl
  | cons hd tl ih => simp [List.flatMap_cons, List.filter_append, hblock, ih]

/-- The catalog's framework identifiers are pairwise distinct. -/
theorem frameworks_keys_nodup : (FRAMEWORKS.map Prod.fst).Nodup := by decide

/-- In an association list with distinct keys, a key determines its
value. -/
theorem value_eq_of_nodup_keys {α β : Type} {l : List (α × β)}
    (hnd : (l.map Prod.fst).Nodup) {k : α} {a b : β}
    (ha : (k, a) ∈ l) (hb : (k, b) ∈ l) : a = b := by
  induction l with
  | nil => cases ha
  | cons e t ih =>
      simp only [List.map_cons, List.nodup_cons] at hnd
      cases ha with
      | head =>
          cases hb with
          | head => rfl
          | tail _ hbt =>
              exact absurd (List.mem_map_of_mem Prod.fst hbt) (by simpa using hnd.1)
      | tail _ hat =>
          cases hb with
          | head =>
              exact absurd (List.mem_map_of_mem Prod.fst hat) (by simpa using hnd.1)
          | tail _ hbt => exact ih hnd.2 hat hbt

/-- The only `copy2` in a per-framework block copies the source file into
that framework's folder. -/
theorem copy_mem_fwBlock {p n fw s d : String}
    (h : Event.copy2 s d ∈ fwBlock p n fw) :
    s = p ∧ d = pathJoin (DEST_DIR ++ "/" ++ fw) n := by
  simp [fwBlock, assign_joplin_tags] at h
  exact ⟨h.1, h.2⟩

/-- Filtering a per-framework block for copies yields exactly its one
`copy2`. -/
theorem filter_isCopy_fwBlock (p n fw : String) :
    (fwBlock p n fw).filter isCopy
      = [Event.copy2 p (pathJoin (DEST_DIR ++ "/" ++ fw) n)] := by
  simp [fwBlock, assign_joplin_tags, isCopy]

/-- Filtering a per-framework block for audit writes yields exactly its
one `COPY` log entry. -/
theorem filter_isAudit_fwBlock (p n fw : String) :
    (fwBlock p n fw).filter isAudit
      = [Event.logAction "COPY" p (pathJoin (DEST_DIR ++ "/" ++ fw) n)] := by
  simp [fwBlock, assign_joplin_tags, isAudit]

/-- Every `copy2` event emitted by `classify_file` reads from the file
being classified. -/
theorem copy_src_classify_file {p s d : String}
    (h : Event.copy2 s d ∈ classify_file p) : s = p := by
  by_cases hc : (classify p).isEmpty
  · simp [classify_file, hc, assign_joplin_tags] at h
  · simp only [classify_file, hc, if_neg, Bool.false_eq_true, not_false_iff,
      ite_false, List.mem_flatMap] at h
    obtain ⟨fw, _, hmem⟩ := h
    exact (copy_mem_fwBlock hmem).1

/-- A run whose copies all read from path `p` leaves the content at `p`
unchanged. -/
theorem runFS_fixed (p : String) (evs : List Event)
    (h : ∀ s d : String, Event.copy2 s d ∈ evs → s = p)
    (fs : String → Option String) :
    runFS evs fs p = fs p := by
  induction evs generalizing fs with
  | nil => rfl
  | cons e rest ih =>
      have hrest : ∀ s d : String, Event.copy2 s d ∈ rest → s = p :=
        fun s d hm => h s d (List.mem_cons_of_mem _ hm)
      have hstep : applyEvent fs e p = fs p := by
        cases e with
        | copy2 s d =>
            have hs : s = p := h s d (List.mem_cons_self _ _)
            show (if p = d then fs s else fs p) = fs p
            rw [hs]
            split <;> rfl
        | ensureDir dir => rfl
        | createNote t c => rfl
        | createTag t => rfl
        | addTagToNote t nt => rfl
        | logAction a s d => rfl
      calc runFS (e :: rest) fs p
          = runFS rest (applyEvent fs e) p := rfl
        _ = applyEvent fs e p := ih hrest (applyEvent fs e)
        _ = fs p := hstep

/-! ## Claim theorems -/

/-- C1: for every filename and every framework in the catalog, `classify`
includes that framework's identifier iff at least one of the framework's
keyword fragments is a case-insensitive substring of the filename; a
filename containing no registered fragment yields the empty result. -/
theorem C1_classifier_iff_keyword_substring (file_path : String) :
    (∀ fw kws, (fw, kws) ∈ FRAMEWORKS →
        (fw ∈ classify file_path ↔ nameMatches kws (basename file_path) = true)) ∧
    ((∀ fw kws, (fw, kws) ∈ FRAMEWORKS → nameMatches kws (basename file_path) = false) →
        classify file_path = []) := by
  constructor
  · intro fw kws hmem
    constructor
    · intro hin
      simp only [classify, List.mem_map, List.mem_filter] at hin
      obtain ⟨e, ⟨heL, hpred⟩, hfst⟩ := hin
      have he : e = (fw, e.2) := by
        rw [← hfst]
      rw [he] at heL
      have : e.2 = kws := value_eq_of_nodup_keys frameworks_keys_nodup heL hmem
      rw [← this]
      exact hpred
    · intro hmatch
      simp only [classify, List.mem_map, List.mem_filter]
      exact ⟨(fw, kws), ⟨hmem, hmatch⟩, rfl⟩
  · intro hnone
    simp only [classify, List.map_eq_nil_iff, List.filter_eq_nil_iff]
    intro e heL
    simp [hnone e.1 e.2 heL]

/-- Witness for C1 at the spec's concrete scenario `FFIEC_Q3_Report.pdf`. -/
theorem C1_classifier_iff_keyword_substring_witness :
    ("FFIEC", ["ffiec", "federal financial institutions"]) ∈ FRAMEWORKS ∧
    "FFIEC" ∈ classify "FFIEC_Q3_Report.pdf" :=
  ⟨by decide,
   ((C1_classifier_iff_keyword_substring "FFIEC_Q3_Report.pdf").1 "FFIEC"
      ["ffiec", "federal financial institutions"] (by decide)).mpr (by decide)⟩

/-- C2: rollback executes the recorded inverse instructions in exact
reverse chronological order — given audit records `A1 .. An` with their
1:1 inverse lines, the i-th executed instruction is the inverse of
record `n-1-i` — and every recorded line is replayed. -/
theorem C2_rollback_reverse_order (audits : List AuditRec) (i : Nat)
    (hi : i < audits.length) :
    (rollbackExec (audits.map inverseOf)).length = audits.length ∧
    (rollbackExec (audits.map inverseOf)).get
        ⟨i, by simpa [rollbackExec] using hi⟩
      = inverseOf (audits.get ⟨audits.length - 1 - i, by omega⟩) := by
  constructor
  · simp [rollbackExec]
  · simp only [rollbackExec, List.get_eq_getElem, List.getElem_reverse,
      List.getElem_map, List.length_map]

/-- Witness for C2 on a three-entry audit sequence: the first executed
instruction is the inverse of the last audit record. -/
theorem C2_rollback_reverse_order_witness :
    (rollbackExec (([⟨0, "COPY", "a", "x"⟩, ⟨1, "COPY", "b", "y"⟩,
        ⟨2, "LEAVE", "c", "c"⟩] : List AuditRec).map inverseOf)).get ⟨0, by decide⟩
      = inverseOf (([⟨0, "COPY", "a", "x"⟩, ⟨1, "COPY", "b", "y"⟩,
        ⟨2, "LEAVE", "c", "c"⟩] : List AuditRec).get ⟨3 - 1 - 0, by decide⟩) :=
  (C2_rollback_reverse_order
    [⟨0, "COPY", "a", "x"⟩, ⟨1, "COPY", "b", "y"⟩, ⟨2, "LEAVE", "c", "c"⟩]
    0 (by decide)).2

/-- C10: classification depends only on the basename of the input path:
two paths with equal basenames classify identically. -/
theorem C10_classification_basename_only (p q : String)
    (h : basename p = basename q) : classify p = classify q := by
  simp only [classify, h]

/-- Witness for C10: the same filename under two different directories. -/
theorem C10_classification_basename_only_witness :
    basename "/home/dan/a/ffiec.txt" = basename "/tmp/b/c/ffiec.txt" ∧
    classify "/home/dan/a/ffiec.txt" = classify "/tmp/b/c/ffiec.txt" :=
  ⟨by decide, C10_classification_basename_only _ _ (by decide)⟩

/-- C3: a file matching N ≥ 1 frameworks yields exactly N `copy2`
operations and exactly N `COPY` audit entries — one per matched
framework, never merged — and both sequences follow the matched
frameworks, which are a sublist of the catalog's iteration order. -/
theorem C3_fanout_counts_and_order (file_path : String)
    (h : 1 ≤ (classify file_path).length) :
    (classify_file file_path).filter isCopy
        = (classify file_path).map (fun fw =>
            Event.copy2 file_path (pathJoin (DEST_DIR ++ "/" ++ fw) (basename file_path))) ∧
    (classify_file file_path).filter isAudit
        = (classify file_path).map (fun fw =>
            Event.logAction "COPY" file_path (pathJoin (DEST_DIR ++ "/" ++ fw) (basename file_path))) ∧
    List.Sublist (classify file_path) (FRAMEWORKS.map Prod.fst) := by
  have hne : (classify file_path).isEmpty = false := by
    cases hc : classify file_path with
    | nil => rw [hc] at h; simp at h
    | cons a t => rfl
  refine ⟨?_, ?_, ?_⟩
  · rw [classify_file]
    simp only [hne, Bool.false_eq_true, if_false]
    exact filter_flatMap_single isCopy _ _
      (fun fw => filter_isCopy_fwBlock file_path (basename file_path) fw)
      (classify file_path)
  · rw [classify_file]
    simp only [hne, Bool.false_eq_true, if_false]
    exact filter_flatMap_single isAudit _ _
      (fun fw => filter_isAudit_fwBlock file_path (basename file_path) fw)
      (classify file_path)
  · exact (List.filter_sublist _).map Prod.fst

/-- Witness for C3: `ffiec_nist_plan.txt` matches two frameworks and gets
two `COPY` audit entries, in catalog order (FFIEC before NIST). -/
theorem C3_fanout_counts_and_order_witness :
    1 ≤ (classify "ffiec_nist_plan.txt").length ∧
    (classify_file "ffiec_nist_plan.txt").filter isAudit
      = (classify "ffiec_nist_plan.txt").map (fun fw =>
          Event.logAction "COPY" "ffiec_nist_plan.txt"
            (pathJoin (DEST_DIR ++ "/" ++ fw) (basename "ffiec_nist_plan.txt"))) :=
  ⟨by decide, (C3_fanout_counts_and_order "ffiec_nist_plan.txt" (by decide)).2.1⟩

/-- C4: a file matching zero frameworks yields zero copy operations and
exactly one `LEAVE` audit entry whose destination equals its source. -/
theorem C4_unmatched_leave (file_path : String) (h : classify file_path = []) :
    (classify_file file_path).filter isCopy = [] ∧
    (classify_file file_path).filter isAudit
      = [Event.logAction "LEAVE" file_path file_path] := by
  rw [classify_file]
  simp [h, assign_joplin_tags, isCopy, isAudit]

/-- Witness for C4 at the spec's concrete scenario `random_notes.txt`. -/
theorem C4_unmatched_leave_witness :
    classify "random_notes.txt" = [] ∧
    (classify_file "random_notes.txt").filter isAudit
      = [Event.logAction "LEAVE" "random_notes.txt" "random_notes.txt"] :=
  ⟨by decide, (C4_unmatched_leave "random_notes.txt" (by decide)).2⟩

/-- C5: each `log_action` call appends exactly one audit record and
exactly one rollback record; the rollback record is always the
instruction moving `dest` back to `src` (also when `src = dest`, as in a
`LEAVE`); and aligned logs stay aligned 1:1 in matching order. -/
theorem C5_log_action_pairing (now : Nat) (action src dest : String)
    (st : LogState) (h : logsAligned st) :
    (log_action now action src dest st).auditLog.length = st.auditLog.length + 1 ∧
    (log_action now action src dest st).rollbackLog.length = st.rollbackLog.length + 1 ∧
    (log_action now action src dest st).rollbackLog
        = st.rollbackLog ++ [⟨dest, src⟩] ∧
    logsAligned (log_action now action src dest st) := by
  obtain ⟨hlen, hcorr⟩ := h
  refine ⟨by simp [log_action], by simp [log_action], rfl, ?_, ?_⟩
  · simp [log_action, hlen]
  · intro i h1 h2
    simp only [log_action, List.length_append, List.length_cons,
      List.length_nil] at h1 h2
    by_cases hil : i < st.auditLog.length
    · have hil2 : i < st.rollbackLog.length := hlen ▸ hil
      simp only [log_action, List.get_eq_getElem]
      rw [List.getElem_append_left hil2, List.getElem_append_left hil]
      exact hcorr i hil hil2
    · have hia : i = st.auditLog.length := by omega
      have hir : i = st.rollbackLog.length := by omega
      simp only [log_action, List.get_eq_getElem]
      rw [List.getElem_append_right (by omega), List.getElem_append_right (by omega)]
      simp [hia, hir, inverseOf]

/-- Witness for C5: one `LEAVE` call with `src = dest` on empty logs. -/
theorem C5_log_action_pairing_witness :
    logsAligned (⟨[], []⟩ : LogState) ∧
    (log_action 7 "LEAVE" "p.txt" "p.txt" ⟨[], []⟩).rollbackLog
        = [⟨"p.txt", "p.txt"⟩] ∧
    logsAligned (log_action 7 "LEAVE" "p.txt" "p.txt" ⟨[], []⟩) :=
  have h0 : logsAligned (⟨[], []⟩ : LogState) :=
    ⟨rfl, fun i h1 _ => absurd h1 (Nat.not_lt_zero i)⟩
  ⟨h0, (C5_log_action_pairing 7 "LEAVE" "p.txt" "p.txt" ⟨[], []⟩ h0).2.2.1,
       (C5_log_action_pairing 7 "LEAVE" "p.txt" "p.txt" ⟨[], []⟩ h0).2.2.2⟩

/-- C6: classifying a file never deletes or moves it: after the full
event trace of `classify_file`, the content at the source path is
exactly what it was before. -/
theorem C6_source_never_removed (file_path : String)
    (fs : String → Option String) :
    runFS (classify_file file_path) fs file_path = fs file_path :=
  runFS_fixed file_path (classify_file file_path)
    (fun _ _ hm => copy_src_classify_file hm) fs

/-- Failure oracle: the copy into the FFIEC folder raises (e.g. the
directory is unwritable); every other operation succeeds. -/
def failFfiecCopy : Event → Bool
  | Event.copy2 _ dest => !(containsSub "/FFIEC/".data dest.data)
  | _ => true

/-- Failure oracle: the Joplin note service is down — every
`create_note` call raises; all filesystem and log operations succeed. -/
def failJoplinNote : Event → Bool
  | Event.createNote _ _ => false
  | _ => true

/-- C7 counterexample: `ffiec_nist_plan.txt` matches FFIEC and NIST; when
the FFIEC copy raises, the NIST copy — which is in the trace and would
itself succeed — is never attempted, refuting per-framework
independence. -/
theorem C7_counterexample_remaining_copy_not_attempted :
    Event.copy2 "ffiec_nist_plan.txt"
        "/home/dan/Business/Compliance_Frameworks/NIST/ffiec_nist_plan.txt"
        ∈ classify_file "ffiec_nist_plan.txt" ∧
    failFfiecCopy (Event.copy2 "ffiec_nist_plan.txt"
        "/home/dan/Business/Compliance_Frameworks/NIST/ffiec_nist_plan.txt") = true ∧
    Event.copy2 "ffiec_nist_plan.txt"
        "/home/dan/Business/Compliance_Frameworks/NIST/ffiec_nist_plan.txt"
        ∉ (runEvents failFfiecCopy (classify_file "ffiec_nist_plan.txt")).1 := by
  decide

/-- C7 amended: the per-framework copies are not independent — a raising
operation aborts `classify_file`, so exactly the longest prefix of the
per-file trace on which nothing raises is executed, and the run succeeds
iff nothing raises. -/
theorem C7_amended_exception_aborts_fanout (file_path : String)
    (ok : Event → Bool) :
    (runEvents ok (classify_file file_path)).1
        = (classify_file file_path).takeWhile ok ∧
    (runEvents ok (classify_file file_path)).2
        = (classify_file file_path).all ok := by
  rw [runEvents_takeWhile]
  exact ⟨rfl, rfl⟩

/-- C8 counterexample: with `ffiec_a.txt` before `nist_b.txt` in the
walk, an I/O failure on the first file aborts the run; the second file's
copy — which would succeed on its own — never happens, refuting
"does not prevent processing of the remaining files". -/
theorem C8_counterexample_walk_aborts :
    (process_files failFfiecCopy ["ffiec_a.txt", "nist_b.txt"]).2 = false ∧
    Event.copy2 "nist_b.txt"
        "/home/dan/Business/Compliance_Frameworks/NIST/nist_b.txt"
        ∈ (runEvents failFfiecCopy (classify_file "nist_b.txt")).1 ∧
    Event.copy2 "nist_b.txt"
        "/home/dan/Business/Compliance_Frameworks/NIST/nist_b.txt"
        ∉ (process_files failFfiecCopy ["ffiec_a.txt", "nist_b.txt"]).1 := by
  decide

/-- C8 amended: a filesystem error while processing one file propagates
out of the walk: the files before it are processed in full, the failing
file's trace stops at the raising operation, the remaining files are not
processed at all, and the run is reported failed (once, at top level). -/
theorem C8_amended_failure_stops_walk (ok : Event → Bool) (pre : List String)
    (f : String) (post : List String)
    (hpre : ∀ g ∈ pre, (classify_file g).all ok = true)
    (hf : (classify_file f).all ok = false) :
    (process_files ok (pre ++ f :: post)).1
        = pre.flatMap classify_file ++ (classify_file f).takeWhile ok ∧
    (process_files ok (pre ++ f :: post)).2 = false := by
  induction pre with
  | nil =>
      simp only [List.nil_append, List.flatMap_nil]
      rw [process_files]
      simp [runEvents_takeWhile, hf]
  | cons g t ih =>
      have hg : (classify_file g).all ok = true := hpre g (List.mem_cons_self _ _)
      have ht : ∀ x ∈ t, (classify_file x).all ok = true :=
        fun x hx => hpre x (List.mem_cons_of_mem _ hx)
      have ihr := ih ht
      rw [List.cons_append, process_files]
      simp only [runEvents_takeWhile, hg, if_true, takeWhile_of_all ok _ hg,
        List.flatMap_cons, List.append_assoc]
      exact ⟨by rw [ihr.1], ihr.2⟩

/-- Witness for C8 amended: `nist_b.txt` processes in full, then the
failure on `ffiec_a.txt` ends the run with failure. -/
theorem C8_amended_failure_stops_walk_witness :
    (∀ g ∈ ["nist_b.txt"], (classify_file g).all failFfiecCopy = true) ∧
    (classify_file "ffiec_a.txt").all failFfiecCopy = false ∧
    (process_files failFfiecCopy (["nist_b.txt"] ++ "ffiec_a.txt" :: [])).2 = false :=
  ⟨by decide, by decide,
   (C8_amended_failure_stops_walk failFfiecCopy ["nist_b.txt"] "ffiec_a.txt" []
      (by decide) (by decide)).2⟩

/-- C9 counterexample: for `ffiec_nist_memo.txt`, a raising `create_note`
call leaves the already-performed FFIEC copy in place but kills the rest
of the per-file work: no audit/rollback entry is written and the NIST
copy — present in the trace — is never attempted, refuting
"non-fatal". -/
theorem C9_counterexample_note_failure_fatal :
    Event.copy2 "ffiec_nist_memo.txt"
        "/home/dan/Business/Compliance_Frameworks/FFIEC/ffiec_nist_memo.txt"
        ∈ (runEvents failJoplinNote (classify_file "ffiec_nist_memo.txt")).1 ∧
    (classify_file "ffiec_nist_memo.txt").any isAudit = true ∧
    (runEvents failJoplinNote (classify_file "ffiec_nist_memo.txt")).1.any isAudit
        = false ∧
    Event.copy2 "ffiec_nist_memo.txt"
        "/home/dan/Business/Compliance_Frameworks/NIST/ffiec_nist_memo.txt"
        ∈ classify_file "ffiec_nist_memo.txt" ∧
    Event.copy2 "ffiec_nist_memo.txt"
        "/home/dan/Business/Compliance_Frameworks/NIST/ffiec_nist_memo.txt"
        ∉ (runEvents failJoplinNote (classify_file "ffiec_nist_memo.txt")).1 := by
  decide

/-- C9 amended: when the note service's `create_note` raises, the copy
already made for the first matched framework is kept (its destination
holds the source's content; nothing ever deletes it), but the failure is
fatal to the rest of the call: no audit/rollback entry is logged and no
further framework is attempted. -/
theorem C9_amended_note_failure_keeps_copy_blocks_rest
    (file_path fw : String) (rest : List String)
    (fs : String → Option String)
    (h : classify file_path = fw :: rest) :
    (runEvents failJoplinNote (classify_file file_path)).1
        = [Event.ensureDir (DEST_DIR ++ "/" ++ fw),
           Event.copy2 file_path
             (pathJoin (DEST_DIR ++ "/" ++ fw) (basename file_path))] ∧
    (runEvents failJoplinNote (classify_file file_path)).1.any isAudit = false ∧
    runFS (runEvents failJoplinNote (classify_file file_path)).1 fs
        (pathJoin (DEST_DIR ++ "/" ++ fw) (basename file_path))
      = fs file_path := by
  have htrace : (runEvents failJoplinNote (classify_file file_path)).1
      = [Event.ensureDir (DEST_DIR ++ "/" ++ fw),
         Event.copy2 file_path
           (pathJoin (DEST_DIR ++ "/" ++ fw) (basename file_path))] := by
    rw [runEvents_takeWhile, classify_file]
    simp [h, fwBlock, assign_joplin_tags, List.takeWhile_cons, failJoplinNote]
  refine ⟨htrace, ?_, ?_⟩
  · rw [htrace]
    rfl
  · rw [htrace]
    show (if pathJoin (DEST_DIR ++ "/" ++ fw) (basename file_path)
            = pathJoin (DEST_DIR ++ "/" ++ fw) (basename file_path)
          then fs file_path
          else fs (pathJoin (DEST_DIR ++ "/" ++ fw) (basename file_path)))
        = fs file_path
    rw [if_pos rfl]

/-- Witness for C9 amended at `ffiec_plan.txt` (matches only FFIEC). -/
theorem C9_amended_note_failure_keeps_copy_blocks_rest_witness :
    classify "ffiec_plan.txt" = "FFIEC" :: [] ∧
    (runEvents failJoplinNote (classify_file "ffiec_plan.txt")).1.any isAudit
        = false :=
  ⟨by decide,
   (C9_amended_note_failure_keeps_copy_blocks_rest "ffiec_plan.txt" "FFIEC" []
      (fun p => some p) (by decide)).2.1⟩
